import Mathlib

/-!
Verification of the cq-cam G-code emission core against its specification.

The development shallowly embeds the Python sources:
  * `src/cq_cam/address.py` (AddressVector, G-code words, axis groups),
  * `src/cq_cam/operations/drill.py` (the Drill operation),
and, where a module of the repository is not present in the source slice
(`command.py`, `operations/strategy.py`, `utils/utils.py`), models the missing
functions from the specification and from the repository's own tests
(`tests/test_gcode.py`), which pin their observable behavior.

Real numbers of the Python code are embedded as rationals `ℚ`; optional
(`None`-able) values as `Option`.
-/

/-- A fully resolved 3D point, embedding `cadquery.Vector` (only its `x`, `y`,
`z` coordinates are consumed by this core). -/
structure Vec where
  x : ℚ
  y : ℚ
  z : ℚ
deriving DecidableEq, Repr

/-- `AddressVector` from `address.py`: a partially specified 3D point, each
axis either a number or unspecified (`None`). -/
structure AddressVector where
  x : Option ℚ := none
  y : Option ℚ := none
  z : Option ℚ := none
deriving DecidableEq, Repr

/-- `AddressVector.to_vector` from `address.py` (lines 75–84): resolve against
an origin.  In relative mode an unspecified axis resolves to `0` and a
specified axis to the stored value minus the origin's; in absolute mode an
unspecified axis resolves to the origin's value and a specified axis to the
stored value. -/
def AddressVector.to_vector (self : AddressVector) (origin : Vec)
    (relative : Bool := false) : Vec :=
  if relative then
    { x := match self.x with | none => 0 | some x => x - origin.x
      y := match self.y with | none => 0 | some y => y - origin.y
      z := match self.z with | none => 0 | some z => z - origin.z }
  else
    { x := match self.x with | none => origin.x | some x => x
      y := match self.y with | none => origin.y | some y => y
      z := match self.z with | none => origin.z | some z => z }

/-- `AddressVector.from_vector` from `address.py`. -/
def AddressVector.from_vector (v : Vec) : AddressVector :=
  { x := some v.x, y := some v.y, z := some v.z }

/-! ## Rational arithmetic helpers

Mathlib's field operations on `ℚ` are `irreducible`, so the embedding uses
kernel-computable equivalents built from `mkRat`, with bridging lemmas
(`ratSub_eq`, `ratMul_eq`, `ratAdd_eq`, `negAbs_eq`) showing they agree with
the standard operations. -/

/-- Rational subtraction `a - b` (kernel-computable form). -/
def ratSub (a b : ℚ) : ℚ := mkRat (a.num * b.den - b.num * a.den) (a.den * b.den)

/-- Rational multiplication `a * b` (kernel-computable form). -/
def ratMul (a b : ℚ) : ℚ := mkRat (a.num * b.num) (a.den * b.den)

/-- Rational addition `a + b` (kernel-computable form). -/
def ratAdd (a b : ℚ) : ℚ := mkRat (a.num * b.den + b.num * a.den) (a.den * b.den)

/-- `-abs(d)` on rationals (kernel-computable form). -/
def negAbs (d : ℚ) : ℚ := mkRat (-(d.num.natAbs : ℤ)) d.den

/-! ## Numeric formatting

`utils/utils.py` (providing `optimize_float`) is not part of the source
slice; it is modelled from the specification. -/

/-- Modelled from the spec: Python's `round(q)` (banker's rounding, round
half to even) on a rational, as used by `round(value, precision)` in
`optimize_float` formatting.  `q.num.fdiv q.den` is `⌊q⌋` and `rem` is the
numerator of the fractional part `q - ⌊q⌋` over denominator `q.den`, so the
three branches compare that fractional part with `1/2`. -/
def roundHalfEven (q : ℚ) : ℤ :=
  let f := q.num.fdiv q.den
  let rem := q.num - f * (q.den : ℤ)
  if 2 * rem < (q.den : ℤ) then f
  else if (q.den : ℤ) < 2 * rem then f + 1
  else if f % 2 = 0 then f else f + 1

/-- Drop trailing decimal zeros: repeatedly divide the scaled integer by 10
while the fractional digit count is positive and the last digit is 0. -/
def stripTrailingZeros : ℤ → ℕ → ℤ × ℕ
  | n, 0 => (n, 0)
  | n, p + 1 => if n % 10 = 0 then stripTrailingZeros (n / 10) p else (n, p + 1)

/-- Left-pad a string with `'0'` to width `w`. -/
def padZeros (w : ℕ) (s : String) : String :=
  String.mk (List.replicate (w - s.length) '0') ++ s

/-- Decimal text of the integer `n` scaled by `10 ^ p`: plain integer when
`p = 0`, otherwise sign, integer part, `'.'`, and `p` fractional digits. -/
def decString (n : ℤ) (p : ℕ) : String :=
  if p = 0 then toString n
  else
    (if n < 0 then "-" else "")
      ++ toString (n.natAbs / 10 ^ p)
      ++ "."
      ++ padZeros p (toString (n.natAbs % 10 ^ p))

/-- Modelled from the spec: `optimize_float(round(q, precision))` from
`utils/utils.py` — round to `precision` fractional digits, then strip
insignificant trailing zeros and a trailing decimal point, so `1.000`
renders `1` and `1.500` renders `1.5`. -/
def optimize_round (q : ℚ) (precision : ℕ) : String :=
  let scaled := roundHalfEven (ratMul q (mkRat ((10 ^ precision : ℕ) : ℤ) 1))
  let (n, p) := stripTrailingZeros scaled precision
  decString n p

/-! ## G-code words and axis groups, from `address.py`. -/

/-- `GCodeWord.__str__` (`address.py` lines 118–121): letter followed by the
address, or the empty string when the address is unspecified.  The plain
(non-precision) words of the source carry integral addresses in every use
exercised here; an integral address renders as its integer numeral. -/
def GCodeWord.str (letter : String) (address : Option ℚ) : String :=
  match address with
  | none => ""
  | some a =>
      letter ++ (if a.den = 1 then toString a.num
                 else toString a.num ++ "/" ++ toString a.den)

/-- `GCodeWordPrecision.__str__` (`address.py` lines 131–135): letter
followed by `optimize_float(round(address, precision))`, or the empty string
when the address is unspecified. -/
def GCodeWordPrecision.str (letter : String) (address : Option ℚ)
    (precision : ℕ := 3) : String :=
  match address with
  | none => ""
  | some a => letter ++ optimize_round a precision

/-- `GCodeAxisGroup.__str__` (`address.py` lines 209–222): collect the three
axis strings that are non-empty, in order, and join them with spaces. -/
def GCodeAxisGroup.str (axis_1 axis_2 axis_3 : String) : String :=
  let coords₁ := if axis_1 ≠ "" then [axis_1] else []
  let coords₂ := if axis_2 ≠ "" then coords₁ ++ [axis_2] else coords₁
  let coords₃ := if axis_3 ≠ "" then coords₂ ++ [axis_3] else coords₂
  String.intercalate " " coords₃

/-- `XYZ.__init__` + rendering (`address.py` lines 225–231): the three
precision words `X`, `Y`, `Z` over the axes of an AddressVector. -/
def XYZ.str (e : AddressVector) (precision : ℕ := 3) : String :=
  GCodeAxisGroup.str
    (GCodeWordPrecision.str "X" e.x precision)
    (GCodeWordPrecision.str "Y" e.y precision)
    (GCodeWordPrecision.str "Z" e.z precision)

/-- The `I` slot of `IJK.__init__` (`address.py` lines 240–241): the word is
built only when the raw component differs from `0` (an unspecified component
also passes this test, and then renders empty). -/
def IJK.axis_1 (center : AddressVector) (precision : ℕ := 3) : String :=
  if center.x ≠ some 0 then GCodeWordPrecision.str "I" center.x precision else ""

/-- The `J` slot of `IJK.__init__` (`address.py` lines 243–244). -/
def IJK.axis_2 (center : AddressVector) (precision : ℕ := 3) : String :=
  if center.y ≠ some 0 then GCodeWordPrecision.str "J" center.y precision else ""

/-- The `K` slot of `IJK.__init__` (`address.py` lines 246–247). -/
def IJK.axis_3 (center : AddressVector) (precision : ℕ := 3) : String :=
  if center.z ≠ some 0 then GCodeWordPrecision.str "K" center.z precision else ""

/-- `IJK.__init__` + rendering (`address.py` lines 234–249). -/
def IJK.str (center : AddressVector) (precision : ℕ := 3) : String :=
  GCodeAxisGroup.str (IJK.axis_1 center precision) (IJK.axis_2 center precision)
    (IJK.axis_3 center precision)

/-! ## Command chain model

`command.py` is not part of the source slice; the command constructors used
by `drill.py` are modelled from the specification (§3 "Command", §4.2) and
the repository's tests. -/

/-- Motion kinds of the command chain (spec §3: rapid / linear cut / plunge /
circular-CW / circular-CCW). -/
inductive CommandKind where
  | rapid
  | cut
  | plungeCut
  | circularCW
  | circularCCW
deriving DecidableEq, Repr

/-- Modelled from the spec: a `Command` from the missing `command.py` as
consumed by `drill.py` — a motion kind, a *start* position, an *end*
specification (`endPos`, the `end` attribute of the source), and an optional
feed rate. -/
structure Command where
  kind : CommandKind
  start : AddressVector
  endPos : AddressVector
  feed : Option ℚ
deriving DecidableEq, Repr

/-- Modelled from the spec: `Rapid.abs(x=…, y=…, z=…, start=…)` from the
missing `command.py` — a rapid command whose end specification carries
exactly the supplied axes; rapids never carry a feed rate. -/
def Rapid.abs (x y z : Option ℚ) (start : AddressVector) : Command :=
  { kind := .rapid, start := start, endPos := { x := x, y := y, z := z },
    feed := none }

/-- Modelled from the spec: `PlungeCut.abs(z=…, feed=…, start=…)` from the
missing `command.py` — a plunge cut along Z only, carrying the feed rate. -/
def PlungeCut.abs (z : ℚ) (feed : ℚ) (start : AddressVector) : Command :=
  { kind := .plungeCut, start := start,
    endPos := { x := none, y := none, z := some z }, feed := some feed }

/-! ## Nearest-neighbor ordering (`drill.py` lines 62–72)

`Strategy._pick_nearest` lives in the missing `operations/strategy.py` and is
modelled from the spec: pick, among the remaining points, one at minimum
Euclidean distance from the last visited point (deterministically: the
earliest such point).  Minimising the squared distance is equivalent to
minimising the Euclidean distance, and keeps the development in `ℚ`. -/

/-- A 2D drill target, `(point.x, point.y)` of `drill.py` line 62. -/
abbrev Pt := ℚ × ℚ

/-- Squared Euclidean distance between two 2D points. -/
def dist2 (a b : Pt) : ℚ :=
  ratAdd (ratMul (ratSub a.1 b.1) (ratSub a.1 b.1))
    (ratMul (ratSub a.2 b.2) (ratSub a.2 b.2))

/-- Modelled from the spec: `Strategy._pick_nearest(last, points)` — the
earliest point of `points` at minimum (squared) Euclidean distance from
`last`.  Total with a junk value on `[]`; `drill.py` only calls it on
non-empty lists. -/
def pick_nearest (last : Pt) : List Pt → Pt
  | [] => (0, 0)
  | [p] => p
  | p :: q :: rest =>
      let best := pick_nearest last (q :: rest)
      if dist2 last p ≤ dist2 last best then p else best

/-- `drill_points.pop(drill_points.index(drill_point))` of `drill.py` line
71: remove the first occurrence of `p`. -/
def removeFirst (p : Pt) : List Pt → List Pt
  | [] => []
  | q :: rest => if q = p then rest else q :: removeFirst p rest

/-- The `while drill_points:` ordering loop of `drill.py` lines 65–72: take
the first point in input order first, thereafter repeatedly the nearest
remaining point, removing each chosen point from the remaining list.  The
loop runs exactly `length` iterations since each one removes one point. -/
def orderDrillPoints : ℕ → Option Pt → List Pt → List Pt
  | 0, _, _ => []
  | _ + 1, _, [] => []
  | fuel + 1, last, p₀ :: rest =>
      let chosen := match last with
        | none => p₀
        | some l => pick_nearest l (p₀ :: rest)
      chosen :: orderDrillPoints fuel (some chosen) (removeFirst chosen (p₀ :: rest))

/-- The nearest-neighbor ordering of `drill.py` lines 63–72 (`last` starts
out as `None`). -/
def ordered_drill_points (points : List Pt) : List Pt :=
  orderDrillPoints points.length none points

/-! ## The Drill operation (`drill.py`) -/

/-- An object handed to the Drill operation, embedding the `cadquery` shapes
`drill.py` dispatches on.  The geometry kernel is an external collaborator
(spec §6), so wires carry the centre of the face built from them and faces
carry the centres of their inner wires and of their outer wire; `edge`
stands for any shape that is none of vector / wire / face (e.g. a
`cq.Edge`), the unsupported case of `drill.py` line 54. -/
inductive CqObject where
  | vector (v : Vec)
  | wire (center : Vec)
  | face (innerCenters : List Vec) (outerCenter : Vec)
  | edge
deriving DecidableEq, Repr

/-- `OperationError` messages raised by `Drill.__post_init__`. -/
def operationErrorO : String := "o must be defined"

/-- Error for a missing depth (`drill.py` line 37). -/
def operationErrorDepth : String := "depth must be defined"

/-- Error for an unsupported shape type (`drill.py` lines 55–57). -/
def operationErrorUnsupported : String :=
  "Object type not supported by Profile operation"

/-- Error for an empty target extraction (`drill.py` line 60). -/
def operationErrorEmpty : String := "Given wp does not contain anything to do"

/-- The target-extraction loop of `drill.py` lines 39–57: one vector per
point or wire, one per inner wire of a face with inner wires, the outer-wire
centre for a face without, each mapped through the job's coordinate
transform; any other object raises the unsupported-type operation error. -/
def drillVectorsOf (tf : Vec → Vec) : List CqObject → Except String (List Vec)
  | [] => .ok []
  | obj :: rest =>
      match obj with
      | .vector v => (drillVectorsOf tf rest).map (tf v :: ·)
      | .wire c => (drillVectorsOf tf rest).map (tf c :: ·)
      | .face innerCenters outerCenter =>
          if innerCenters ≠ [] then
            (drillVectorsOf tf rest).map (innerCenters.map tf ++ ·)
          else
            (drillVectorsOf tf rest).map (tf outerCenter :: ·)
      | .edge => .error operationErrorUnsupported

/-- The command-emission loop of `drill.py` lines 75–87: four commands per
ordered target — rapid to the job's safe height on Z, rapid to the target's
X/Y, rapid to Z=0, plunge cut to the (negated) depth at the job's feed rate —
each chained on the previous command's end, threading `previous_pos`.
Returns the flattened command list and the final `previous_pos`. -/
def drillCutSequences (opSafeHeight feed depth : ℚ) :
    AddressVector → List Pt → List Command × AddressVector
  | prev, [] => ([], prev)
  | prev, point :: rest =>
      let c₁ := Rapid.abs none none (some opSafeHeight) prev
      let c₂ := Rapid.abs (some point.1) (some point.2) none c₁.endPos
      let c₃ := Rapid.abs none none (some 0) c₂.endPos
      let c₄ := PlungeCut.abs depth feed c₃.endPos
      let (cs, fin) := drillCutSequences opSafeHeight feed depth c₄.endPos rest
      (c₁ :: c₂ :: c₃ :: c₄ :: cs, fin)

/-- `Drill.__post_init__` (`drill.py` lines 25–89).  Parameters mirror the
data the operation consults: the job's coordinate transform `tf`
(`job.top.toWorldCoords`), safe height and feed rate, the target input `o`
(`None` or a list of objects), the `depth`, and the optional initial
`previous_pos`.  Returns the produced command list together with the final
`previous_pos`, or the operation error raised. -/
def drill (tf : Vec → Vec) (opSafeHeight feed : ℚ) (o : Option (List CqObject))
    (depth : Option ℚ) (previous_pos : Option AddressVector) :
    Except String (List Command × AddressVector) :=
  let prev₀ := previous_pos.getD {}
  match o with
  | none => .error operationErrorO
  | some objs =>
      match depth with
      | none => .error operationErrorDepth
      | some d =>
          match drillVectorsOf tf objs with
          | .error e => .error e
          | .ok drill_vectors =>
              if drill_vectors = [] then .error operationErrorEmpty
              else
                let drill_points := drill_vectors.map fun v => (v.x, v.y)
                .ok (drillCutSequences opSafeHeight feed (negAbs d) prev₀
                  (ordered_drill_points drill_points))

/-! ## Fixed machine-state sequences

`StartSequence`, `StopSequence`, `ToolChange` live in the missing
`command.py`; they are modelled from the specification (§4.3), with the
repository's own tests (`tests/test_gcode.py` lines 91–114) as the authority
where the two disagree: the tests show that `ToolChange` passes its coolant
through to the restarting `StartSequence` (an `M8`/`M7` word re-appears
after `M3 S…`), while spec §4.3 claims coolant is not re-asserted. -/

/-- `CoolantState` (spec §3): OFF emits nothing.  The `off` case also stands
for the `None` default of the Python constructors. -/
inductive CoolantState where
  | off
  | mist
  | flood
deriving DecidableEq, Repr

/-- Modelled from the spec: `StartSequence(speed?, coolant).to_gcode()` —
`M3`, optionally `S<speed>`, optionally `M8` (flood) or `M7` (mist), space
joined on one line (tests lines 61–84). -/
def StartSequence.to_gcode (speed : Option ℕ := none)
    (coolant : CoolantState := .off) : String :=
  "M3"
    ++ (match speed with | none => "" | some s => " S" ++ toString s)
    ++ (match coolant with | .off => "" | .mist => " M7" | .flood => " M8")

/-- Modelled from the spec: `StopSequence(coolant).to_gcode()` — `M5`,
followed by the coolant-off word `M9` when coolant is not OFF (tests lines
51–59). -/
def StopSequence.to_gcode (coolant : CoolantState := .off) : String :=
  if coolant = .off then "M5" else "M5 M9"

/-- Modelled from the spec and tests: `ToolChange(n, speed?, coolant)`
renders, on separate lines: the stop sequence (with coolant), `G30`
(retract), `M1` (optional stop), `T<n> G43 H<n> M6` (tool select, length
offset, tool change), then the start sequence — to which, per tests lines
101–114, the coolant is passed along with the speed. -/
def ToolChange.to_gcode (tool_number : ℕ) (speed : Option ℕ := none)
    (coolant : CoolantState := .off) : String :=
  StopSequence.to_gcode coolant
    ++ "\nG30\nM1\nT" ++ toString tool_number
    ++ " G43 H" ++ toString tool_number ++ " M6\n"
    ++ StartSequence.to_gcode speed coolant

/-! ## Circular moves

`CircularCW.to_gcode` lives in the missing `command.py`; modelled from the
specification (§4.2 steps 1–4, §4.3 arc-center handling) and the
repository's tests (`test_cw_arc`, `test_linear`): the command letter, then
the end axes that differ from the resolved start (no embedded spaces in the
tests' expected text), then one `I`/`J`/`K` word per *specified* axis of the
arc-center specification, holding the offset from the start point to the
center point — a zero offset is kept (`J0` in `test_cw_arc`), an
unspecified center axis contributes nothing. -/

/-- Offset words of the arc center: start-to-center offset per specified
center axis, zero offsets retained. -/
def arcOffsetWords (start : Vec) (center : AddressVector)
    (precision : ℕ := 3) : String :=
  (match center.x with
   | none => "" | some cx => "I" ++ optimize_round (ratSub cx start.x) precision)
    ++ (match center.y with
        | none => "" | some cy => "J" ++ optimize_round (ratSub cy start.y) precision)
    ++ (match center.z with
        | none => "" | some cz => "K" ++ optimize_round (ratSub cz start.z) precision)

/-- End-axis words: one word per axis of the resolved end that differs from
the start (spec §4.2 step 3). -/
def changedAxisWords (start endV : Vec) (precision : ℕ := 3) : String :=
  (if endV.x ≠ start.x then "X" ++ optimize_round endV.x precision else "")
    ++ (if endV.y ≠ start.y then "Y" ++ optimize_round endV.y precision else "")
    ++ (if endV.z ≠ start.z then "Z" ++ optimize_round endV.z precision else "")

/-- Modelled from the spec: `CircularCW(end=…, center=…).to_gcode()` with a
given resolved start position — `G2`, the changed end axes, the IJK offset
words; returns the text and the resolved end position. -/
def CircularCW.to_gcode (start : Vec) (endSpec center : AddressVector) :
    String × Vec :=
  let endV := endSpec.to_vector start false
  ("G2" ++ changedAxisWords start endV ++ arcOffsetWords start center, endV)

theorem ratSub_eq (a b : ℚ) : ratSub a b = a - b := by
  rw [ratSub, Rat.mkRat_eq_div]
  push_cast
  conv_rhs => rw [← Rat.num_div_den a, ← Rat.num_div_den b]
  have ha : ((a.den : ℚ)) ≠ 0 := by positivity
  have hb : ((b.den : ℚ)) ≠ 0 := by positivity
  field_simp
  ring

theorem ratMul_eq (a b : ℚ) : ratMul a b = a * b := by
  rw [ratMul, Rat.mkRat_eq_div]
  push_cast
  conv_rhs => rw [← Rat.num_div_den a, ← Rat.num_div_den b]
  have ha : ((a.den : ℚ)) ≠ 0 := by positivity
  have hb : ((b.den : ℚ)) ≠ 0 := by positivity
  field_simp

theorem ratAdd_eq (a b : ℚ) : ratAdd a b = a + b := by
  rw [ratAdd, Rat.mkRat_eq_div]
  push_cast
  conv_rhs => rw [← Rat.num_div_den a, ← Rat.num_div_den b]
  have ha : ((a.den : ℚ)) ≠ 0 := by positivity
  have hb : ((b.den : ℚ)) ≠ 0 := by positivity
  field_simp

theorem negAbs_eq (d : ℚ) : negAbs d = -|d| := by
  rw [negAbs, Rat.mkRat_eq_div]
  push_cast
  rw [neg_div]
  congr 1
  conv_rhs => rw [← Rat.num_div_den d]
  rw [abs_div]
  congr 1
  exact (abs_of_pos (a := ((d.den : ℚ))) (by positivity)).symm

/-- Helper: the axis-group rendering is the space-joined list of the
non-empty axis strings, in order. -/
theorem axisGroup_str_eq_filter (s₁ s₂ s₃ : String) :
    GCodeAxisGroup.str s₁ s₂ s₃ =
      String.intercalate " " ([s₁, s₂, s₃].filter (· ≠ "")) := by
  have : ([s₁, s₂, s₃].filter (· ≠ "")) =
      (let c₁ := if s₁ ≠ "" then [s₁] else []
       let c₂ := if s₂ ≠ "" then c₁ ++ [s₂] else c₁
       if s₃ ≠ "" then c₂ ++ [s₃] else c₂) := by
    by_cases h₁ : s₁ = "" <;> by_cases h₂ : s₂ = "" <;> by_cases h₃ : s₃ = "" <;>
      simp [h₁, h₂, h₃]
  rw [GCodeAxisGroup.str, ← this]

/-- C7: for every AddressVector and origin, absolute resolution returns, on
each axis, the origin's value when the axis is unspecified and the stored
value when it is specified; a fully-unspecified AddressVector resolves to
exactly the origin. -/
theorem absolute_resolution_spec (av : AddressVector) (origin : Vec) :
    (av.to_vector origin false = { x := av.x.getD origin.x,
                                   y := av.y.getD origin.y,
                                   z := av.z.getD origin.z })
    ∧ (AddressVector.to_vector {} origin false = origin) := by
  constructor
  · simp only [AddressVector.to_vector, if_neg Bool.false_ne_true]
    cases av.x <;> cases av.y <;> cases av.z <;> rfl
  · rfl

/-- C9: relative resolution returns, on each axis, the stored value minus the
origin's value when the axis is specified, and `0` when it is unspecified. -/
theorem relative_resolution_spec (av : AddressVector) (origin : Vec) :
    av.to_vector origin true =
      { x := match av.x with | none => 0 | some x => x - origin.x
        y := match av.y with | none => 0 | some y => y - origin.y
        z := match av.z with | none => 0 | some z => z - origin.z } := by
  rfl

theorem pick_nearest_mem (last : Pt) : ∀ (ps : List Pt), ps ≠ [] → pick_nearest last ps ∈ ps
  | [], h => absurd rfl h
  | [p], _ => by simp [pick_nearest]
  | p :: q :: rest, _ => by
      have ih := pick_nearest_mem last (q :: rest) (by simp)
      rw [pick_nearest]
      split
      · exact List.mem_cons_self _ _
      · exact List.mem_cons_of_mem _ ih

theorem pick_nearest_min (last : Pt) : ∀ (ps : List Pt), ∀ q ∈ ps,
    dist2 last (pick_nearest last ps) ≤ dist2 last q
  | [p], q, hq => by
      simp at hq
      subst hq
      simp [pick_nearest]
  | p :: p' :: rest, q, hq => by
      have ih := pick_nearest_min last (p' :: rest)
      rw [pick_nearest]
      rcases List.mem_cons.mp hq with h | h
      · subst h
        split
        · exact le_refl _
        · next hlt => exact le_of_lt (lt_of_not_le hlt)
      · split
        · next hle => exact le_trans hle (ih q h)
        · exact ih q h

theorem removeFirst_perm (p : Pt) : ∀ (l : List Pt), p ∈ l → l.Perm (p :: removeFirst p l)
  | q :: rest, hmem => by
      rw [removeFirst]
      by_cases h : q = p
      · subst h
        simp
      · rw [if_neg h]
        have hp : p ∈ rest := by
          rcases List.mem_cons.mp hmem with h' | h'
          · exact absurd h'.symm h
          · exact h'
        have ih := removeFirst_perm p rest hp
        exact (ih.cons q).trans (List.Perm.swap p q _)

theorem length_removeFirst (p : Pt) : ∀ (l : List Pt), p ∈ l →
    (removeFirst p l).length + 1 = l.length
  | q :: rest, hmem => by
      rw [removeFirst]
      by_cases h : q = p
      · simp [h]
      · rw [if_neg h]
        have hp : p ∈ rest := by
          rcases List.mem_cons.mp hmem with h' | h'
          · exact absurd h'.symm h
          · exact h'
        simp only [List.length_cons]
        rw [← length_removeFirst p rest hp]

theorem mem_of_mem_removeFirst (p q : Pt) : ∀ (l : List Pt),
    q ∈ removeFirst p l → q ∈ l
  | [], h => absurd h (by simp [removeFirst])
  | r :: rest, h => by
      rw [removeFirst] at h
      by_cases hr : r = p
      · rw [if_pos hr] at h
        exact List.mem_cons_of_mem _ h
      · rw [if_neg hr] at h
        rcases List.mem_cons.mp h with h' | h'
        · exact h' ▸ List.mem_cons_self _ _
        · exact List.mem_cons_of_mem _ (mem_of_mem_removeFirst p q rest h')

theorem orderDrillPoints_perm : ∀ (fuel : ℕ) (last : Option Pt) (ps : List Pt),
    ps.length ≤ fuel → (orderDrillPoints fuel last ps).Perm ps
  | 0, _, ps, h => by
      have : ps = [] := List.length_eq_zero.mp (Nat.le_zero.mp h)
      subst this
      simp [orderDrillPoints]
  | fuel + 1, last, [], _ => by simp [orderDrillPoints]
  | fuel + 1, last, p₀ :: rest, h => by
      show ((match last with
        | none => p₀
        | some l => pick_nearest l (p₀ :: rest)) ::
        orderDrillPoints fuel _ _).Perm _
      set chosen := (match last with
        | none => p₀
        | some l => pick_nearest l (p₀ :: rest)) with hchosen
      have hmem : chosen ∈ p₀ :: rest := by
        rw [hchosen]
        match last with
        | none => exact List.mem_cons_self _ _
        | some l => exact pick_nearest_mem l _ (by simp)
      have hlen : (removeFirst chosen (p₀ :: rest)).length ≤ fuel := by
        have := length_removeFirst chosen _ hmem
        omega
      have ih := orderDrillPoints_perm fuel (some chosen) (removeFirst chosen (p₀ :: rest)) hlen
      exact (ih.cons chosen).trans (removeFirst_perm chosen _ hmem).symm

theorem orderDrillPoints_none_eq (fuel : ℕ) (p₀ : Pt) (rest : List Pt) :
    orderDrillPoints (fuel + 1) none (p₀ :: rest) =
      p₀ :: orderDrillPoints fuel (some p₀) (removeFirst p₀ (p₀ :: rest)) := rfl

theorem orderDrillPoints_some_eq (fuel : ℕ) (l p₀ : Pt) (rest : List Pt) :
    orderDrillPoints (fuel + 1) (some l) (p₀ :: rest) =
      pick_nearest l (p₀ :: rest) ::
        orderDrillPoints fuel (some (pick_nearest l (p₀ :: rest)))
          (removeFirst (pick_nearest l (p₀ :: rest)) (p₀ :: rest)) := rfl

theorem orderDrillPoints_head_min (fuel : ℕ) (c : Pt) (rem : List Pt)
    (hlen : rem.length ≤ fuel) (b : Pt) (t : List Pt)
    (heq : orderDrillPoints fuel (some c) rem = b :: t) :
    ∀ q ∈ b :: t, dist2 c b ≤ dist2 c q := by
  intro q hq
  have hq_rem : q ∈ rem := by
    have hperm := orderDrillPoints_perm fuel (some c) rem hlen
    exact hperm.mem_iff.mp (heq ▸ hq)
  match fuel, rem with
  | 0, rem => simp [orderDrillPoints] at heq
  | f + 1, [] => simp [orderDrillPoints] at heq
  | f + 1, r₀ :: rrest =>
      rw [orderDrillPoints_some_eq] at heq
      have hb : pick_nearest c (r₀ :: rrest) = b := ((List.cons.injEq _ _ _ _).mp heq).1
      rw [← hb]
      exact pick_nearest_min c (r₀ :: rrest) q hq_rem

theorem orderDrillPoints_step_min : ∀ (fuel : ℕ) (last : Option Pt) (ps : List Pt),
    ps.length ≤ fuel →
    ∀ (i : ℕ) (a b : Pt) (t : List Pt),
      (orderDrillPoints fuel last ps).drop i = a :: b :: t →
      ∀ q ∈ b :: t, dist2 a b ≤ dist2 a q
  | 0, _, ps, h, i, a, b, t, hdrop => by
      have : ps = [] := List.length_eq_zero.mp (Nat.le_zero.mp h)
      subst this
      simp [orderDrillPoints, List.drop_nil] at hdrop
  | fuel + 1, last, [], _, i, a, b, t, hdrop => by
      simp [orderDrillPoints, List.drop_nil] at hdrop
  | fuel + 1, none, p₀ :: rest, h, i, a, b, t, hdrop => by
      rw [orderDrillPoints_none_eq] at hdrop
      have hmem : p₀ ∈ p₀ :: rest := List.mem_cons_self _ _
      have hlen : (removeFirst p₀ (p₀ :: rest)).length ≤ fuel := by
        have := length_removeFirst p₀ _ hmem
        omega
      match i with
      | 0 =>
          rw [List.drop_zero] at hdrop
          obtain ⟨ha, ho'⟩ := (List.cons.injEq _ _ _ _).mp hdrop
          rw [← ha]
          exact orderDrillPoints_head_min fuel _ _ hlen b t ho'
      | j + 1 =>
          rw [List.drop_succ_cons] at hdrop
          exact orderDrillPoints_step_min fuel (some p₀) _ hlen j a b t hdrop
  | fuel + 1, some l, p₀ :: rest, h, i, a, b, t, hdrop => by
      rw [orderDrillPoints_some_eq] at hdrop
      have hmem : pick_nearest l (p₀ :: rest) ∈ p₀ :: rest :=
        pick_nearest_mem l _ (by simp)
      have hlen : (removeFirst (pick_nearest l (p₀ :: rest)) (p₀ :: rest)).length ≤ fuel := by
        have := length_removeFirst (pick_nearest l (p₀ :: rest)) _ hmem
        omega
      match i with
      | 0 =>
          rw [List.drop_zero] at hdrop
          obtain ⟨ha, ho'⟩ := (List.cons.injEq _ _ _ _).mp hdrop
          rw [← ha]
          exact orderDrillPoints_head_min fuel _ _ hlen b t ho'
      | j + 1 =>
          rw [List.drop_succ_cons] at hdrop
          exact orderDrillPoints_step_min fuel (some (pick_nearest l (p₀ :: rest))) _ hlen j a b t hdrop

theorem drillCutSequences_nil (s f d : ℚ) (prev : AddressVector) :
    drillCutSequences s f d prev [] = ([], prev) := rfl

theorem drillCutSequences_cons (s f d : ℚ) (prev : AddressVector) (p : Pt) (rest : List Pt) :
    drillCutSequences s f d prev (p :: rest) =
      (Command.mk .rapid prev ⟨none, none, some s⟩ none ::
       Command.mk .rapid ⟨none, none, some s⟩ ⟨some p.1, some p.2, none⟩ none ::
       Command.mk .rapid ⟨some p.1, some p.2, none⟩ ⟨none, none, some 0⟩ none ::
       Command.mk .plungeCut ⟨none, none, some 0⟩ ⟨none, none, some d⟩ (some f) ::
       (drillCutSequences s f d ⟨none, none, some d⟩ rest).1,
       (drillCutSequences s f d ⟨none, none, some d⟩ rest).2) := rfl

theorem drillCutSequences_length (s f d : ℚ) : ∀ (pts : List Pt) (prev : AddressVector),
    (drillCutSequences s f d prev pts).1.length = 4 * pts.length
  | [], prev => by simp [drillCutSequences_nil]
  | p :: rest, prev => by
      rw [drillCutSequences_cons]
      simp only [List.length_cons, drillCutSequences_length s f d rest, List.length_cons]
      ring

theorem drillCutSequences_template (s f d : ℚ) : ∀ (pts : List Pt) (prev : AddressVector)
    (k : ℕ) (hk : k < pts.length),
    ∃ s₁ s₂ s₃ s₄,
      ((drillCutSequences s f d prev pts).1.drop (4 * k)).take 4 =
        [Command.mk .rapid s₁ ⟨none, none, some s⟩ none,
         Command.mk .rapid s₂ ⟨some (pts.get ⟨k, hk⟩).1, some (pts.get ⟨k, hk⟩).2, none⟩ none,
         Command.mk .rapid s₃ ⟨none, none, some 0⟩ none,
         Command.mk .plungeCut s₄ ⟨none, none, some d⟩ (some f)]
  | p :: rest, prev, 0, hk => by
      rw [drillCutSequences_cons]
      exact ⟨prev, _, _, _, rfl⟩
  | p :: rest, prev, k + 1, hk => by
      rw [drillCutSequences_cons]
      have hk' : k < rest.length := by simpa using Nat.lt_of_succ_lt_succ hk
      obtain ⟨s₁, s₂, s₃, s₄, ih⟩ :=
        drillCutSequences_template s f d rest ⟨none, none, some d⟩ k hk'
      refine ⟨s₁, s₂, s₃, s₄, ?_⟩
      have hdrop : (4 * (k + 1)) = (4 * k) + 1 + 1 + 1 + 1 := by ring
      rw [hdrop]
      simp only [List.drop_succ_cons]
      rw [show (p :: rest).get ⟨k + 1, hk⟩ = rest.get ⟨k, hk'⟩ from rfl]
      exact ih

theorem drillCutSequences_chain (s f d : ℚ) : ∀ (pts : List Pt) (prev : AddressVector)
    (cs : List Command) (fin : AddressVector),
    drillCutSequences s f d prev pts = (cs, fin) →
    (cs = [] → fin = prev)
    ∧ (∀ c₀ t, cs = c₀ :: t → c₀.start = prev)
    ∧ (∀ i c c' t, cs.drop i = c :: c' :: t → c'.start = c.endPos)
    ∧ (∀ c, cs.getLast? = some c → fin = c.endPos)
  | [], prev, cs, fin, h => by
      rw [drillCutSequences_nil] at h
      obtain ⟨h₁, h₂⟩ := Prod.mk.injEq .. |>.mp h.symm
      subst h₁
      subst h₂
      refine ⟨fun _ => rfl, fun c₀ t ht => by simp at ht,
        fun i c c' t ht => ?_, fun c hc => by simp at hc⟩
      rw [List.drop_nil] at ht
      simp at ht
  | p :: rest, prev, cs, fin, h => by
      rw [drillCutSequences_cons] at h
      obtain ⟨hcs, hfin⟩ := Prod.mk.injEq .. |>.mp h
      obtain ⟨ih₁, ih₂, ih₃, ih₄⟩ :=
        drillCutSequences_chain s f d rest ⟨none, none, some d⟩
          (drillCutSequences s f d ⟨none, none, some d⟩ rest).1
          (drillCutSequences s f d ⟨none, none, some d⟩ rest).2 rfl
      subst hcs
      subst hfin
      refine ⟨fun hnil => by simp at hnil, fun c₀ t ht => ?_, ?_, ?_⟩
      · obtain ⟨hc₀, -⟩ := List.cons.injEq .. |>.mp ht.symm
        rw [hc₀]
      · intro i c c' t ht
        match i with
        | 0 =>
            obtain ⟨h₁, h₂⟩ := List.cons.injEq .. |>.mp ht
            obtain ⟨h₃, -⟩ := List.cons.injEq .. |>.mp h₂
            rw [← h₃, ← h₁]
        | 1 =>
            rw [List.drop_succ_cons, List.drop_zero] at ht
            obtain ⟨h₁, h₂⟩ := List.cons.injEq .. |>.mp ht
            obtain ⟨h₃, -⟩ := List.cons.injEq .. |>.mp h₂
            rw [← h₃, ← h₁]
        | 2 =>
            rw [List.drop_succ_cons, List.drop_succ_cons, List.drop_zero] at ht
            obtain ⟨h₁, h₂⟩ := List.cons.injEq .. |>.mp ht
            obtain ⟨h₃, -⟩ := List.cons.injEq .. |>.mp h₂
            rw [← h₃, ← h₁]
        | 3 =>
            rw [List.drop_succ_cons, List.drop_succ_cons, List.drop_succ_cons,
              List.drop_zero] at ht
            obtain ⟨h₁, h₂⟩ := List.cons.injEq .. |>.mp ht
            rw [← h₁]
            exact ih₂ c' t h₂
        | j + 4 =>
            rw [show j + 4 = j + 1 + 1 + 1 + 1 from rfl] at ht
            simp only [List.drop_succ_cons] at ht
            exact ih₃ j c c' t ht
      · intro c hc
        match hr1 : (drillCutSequences s f d ⟨none, none, some d⟩ rest).1 with
        | [] =>
            rw [hr1] at hc
            have : c = Command.mk .plungeCut ⟨none, none, some 0⟩ ⟨none, none, some d⟩ (some f) := by
              simp [List.getLast?] at hc
              exact hc.symm
            rw [this]
            exact ih₁ hr1
        | x :: xs =>
            rw [hr1] at hc
            rw [List.getLast?_cons_cons, List.getLast?_cons_cons,
              List.getLast?_cons_cons, List.getLast?_cons_cons] at hc
            exact ih₄ c (hr1 ▸ hc)

theorem drillVectorsOf_edge (tf : Vec → Vec) : ∀ (objs : List CqObject),
    CqObject.edge ∈ objs → drillVectorsOf tf objs = .error operationErrorUnsupported
  | obj :: rest, hmem => by
      rcases List.mem_cons.mp hmem with h | h
      · subst h
        rfl
      · have ih := drillVectorsOf_edge tf rest h
        match obj with
        | .vector v => rw [drillVectorsOf, ih]; rfl
        | .wire c => rw [drillVectorsOf, ih]; rfl
        | .face ic oc =>
            rw [drillVectorsOf]
            split <;> rw [ih] <;> rfl
        | .edge => rfl

theorem drill_some_eq (tf : Vec → Vec) (s f : ℚ) (objs : List CqObject) (d : ℚ)
    (prev : Option AddressVector) :
    drill tf s f (some objs) (some d) prev =
      (match drillVectorsOf tf objs with
       | .error e => .error e
       | .ok vs =>
          if vs = [] then .error operationErrorEmpty
          else .ok (drillCutSequences s f (negAbs d) (prev.getD {})
            (ordered_drill_points (vs.map fun v => (v.x, v.y))))) := rfl

theorem drill_missing_o (tf : Vec → Vec) (s f : ℚ) (dep : Option ℚ)
    (prev : Option AddressVector) :
    drill tf s f none dep prev = .error operationErrorO := rfl

theorem drill_missing_depth (tf : Vec → Vec) (s f : ℚ) (objs : List CqObject)
    (prev : Option AddressVector) :
    drill tf s f (some objs) none prev = .error operationErrorDepth := rfl

theorem drill_unsupported (tf : Vec → Vec) (s f : ℚ) (objs : List CqObject) (d : ℚ)
    (prev : Option AddressVector) (hmem : CqObject.edge ∈ objs) :
    drill tf s f (some objs) (some d) prev = .error operationErrorUnsupported := by
  rw [drill_some_eq, drillVectorsOf_edge tf objs hmem]

theorem drill_empty (tf : Vec → Vec) (s f : ℚ) (objs : List CqObject) (d : ℚ)
    (prev : Option AddressVector) (hempty : drillVectorsOf tf objs = .ok []) :
    drill tf s f (some objs) (some d) prev = .error operationErrorEmpty := by
  rw [drill_some_eq, hempty]
  rfl

theorem drill_ok_inv (tf : Vec → Vec) (s f : ℚ) (objs : List CqObject) (d : ℚ)
    (prev : Option AddressVector) (cmds : List Command) (fin : AddressVector)
    (h : drill tf s f (some objs) (some d) prev = .ok (cmds, fin)) :
    ∃ vecs, drillVectorsOf tf objs = .ok vecs ∧ vecs ≠ [] ∧
      (cmds, fin) = drillCutSequences s f (negAbs d)
        ((prev.getD {})) (ordered_drill_points (vecs.map fun v => (v.x, v.y))) := by
  rw [drill_some_eq] at h
  rcases hv : drillVectorsOf tf objs with e | vecs
  · rw [hv] at h
    exact absurd h (by simp)
  · rw [hv] at h
    dsimp only at h
    by_cases hnil : vecs = []
    · rw [if_pos hnil] at h
      exact absurd h (by simp)
    · rw [if_neg hnil] at h
      refine ⟨vecs, rfl, hnil, ?_⟩
      exact (Except.ok.injEq .. |>.mp h).symm

theorem negAbs_neg (d : ℚ) : negAbs (-d) = negAbs d := by
  rw [negAbs_eq, negAbs_eq, abs_neg]

/-- C1: for every non-empty list of extracted 2D target points, the Drill
ordering visits the first point in input order first; every input target is
visited exactly once and never revisited (the ordering is a permutation of
the input); whenever `a` is a visited point and `b` the next one, `b` is at
minimum (squared, equivalently Euclidean) distance from `a` among all
not-yet-visited points (the multiset `b :: t` remaining after `a`); and the
three collinear points (0,0), (5,0), (10,0) given in that order are visited
in exactly that order. -/
theorem drill_nearest_neighbor_order (ps : List Pt) (hne : ps ≠ []) :
    (ordered_drill_points ps).Perm ps
    ∧ (ordered_drill_points ps).head? = ps.head?
    ∧ (∀ (i : ℕ) (a b : Pt) (t : List Pt),
        (ordered_drill_points ps).drop i = a :: b :: t →
        ∀ q ∈ b :: t, dist2 a b ≤ dist2 a q)
    ∧ ordered_drill_points [(0, 0), (5, 0), (10, 0)] = [(0, 0), (5, 0), (10, 0)] := by
  refine ⟨orderDrillPoints_perm _ _ _ le_rfl, ?_,
    fun i a b t h => orderDrillPoints_step_min _ _ _ le_rfl i a b t h, by decide⟩
  match ps, hne with
  | p :: rest, _ =>
      rw [ordered_drill_points, List.length_cons, orderDrillPoints_none_eq]
      rfl

/-- Witness for C1 at the concrete input `[(0,0), (5,0), (10,0)]`. -/
theorem drill_nearest_neighbor_order_witness :
    (ordered_drill_points [(0, 0), (5, 0), (10, 0)]).Perm [(0, 0), (5, 0), (10, 0)]
    ∧ ordered_drill_points [(0, 0), (5, 0), (10, 0)] = [(0, 0), (5, 0), (10, 0)] :=
  ⟨(drill_nearest_neighbor_order [(0, 0), (5, 0), (10, 0)] (by decide)).1,
   (drill_nearest_neighbor_order [(0, 0), (5, 0), (10, 0)] (by decide)).2.2.2⟩

/-- C2: every successfully constructed Drill produces, per ordered target and
in visiting order, exactly four commands — a rapid with only Z set to the
job's safe height, a rapid with X and Y set to the target (Z unspecified), a
rapid with only Z set to 0, and a plunge cut to `Z = -|d|` carrying the
job's feed rate — so the command list has length `4 * N`; and depth `d` and
depth `-d` yield identical results. -/
theorem drill_canned_cycle_commands (tf : Vec → Vec) (s f : ℚ)
    (objs : List CqObject) (d : ℚ) (prev : Option AddressVector)
    (cmds : List Command) (fin : AddressVector)
    (h : drill tf s f (some objs) (some d) prev = .ok (cmds, fin)) :
    (∃ targets : List Pt,
      cmds.length = 4 * targets.length
      ∧ ∀ (k : ℕ) (hk : k < targets.length),
          ∃ s₁ s₂ s₃ s₄,
            (cmds.drop (4 * k)).take 4 =
              [Command.mk .rapid s₁ ⟨none, none, some s⟩ none,
               Command.mk .rapid s₂
                 ⟨some (targets.get ⟨k, hk⟩).1, some (targets.get ⟨k, hk⟩).2, none⟩ none,
               Command.mk .rapid s₃ ⟨none, none, some 0⟩ none,
               Command.mk .plungeCut s₄ ⟨none, none, some (-|d|)⟩ (some f)])
    ∧ drill tf s f (some objs) (some (-d)) prev = .ok (cmds, fin) := by
  obtain ⟨vecs, hv, hne, hpair⟩ := drill_ok_inv tf s f objs d prev cmds fin h
  constructor
  · refine ⟨ordered_drill_points (vecs.map fun v => (v.x, v.y)), ?_, ?_⟩
    · have := drillCutSequences_length s f (negAbs d)
        (ordered_drill_points (vecs.map fun v => (v.x, v.y))) (prev.getD {})
      rw [← congrArg Prod.fst hpair] at this
      exact this
    · intro k hk
      obtain ⟨s₁, s₂, s₃, s₄, ht⟩ := drillCutSequences_template s f (negAbs d)
        (ordered_drill_points (vecs.map fun v => (v.x, v.y))) (prev.getD {}) k hk
      rw [← congrArg Prod.fst hpair] at ht
      rw [negAbs_eq] at ht
      exact ⟨s₁, s₂, s₃, s₄, ht⟩
  · rw [drill_some_eq] at h ⊢
    rw [negAbs_neg]
    exact h

/-- Witness for C2: a Drill on the single point (1,2) at depth 3, safe
height 5 and feed 100. -/
theorem drill_canned_cycle_commands_witness :
    (∃ targets : List Pt,
      ([Command.mk .rapid ⟨none, none, none⟩ ⟨none, none, some 5⟩ none,
        Command.mk .rapid ⟨none, none, some 5⟩ ⟨some 1, some 2, none⟩ none,
        Command.mk .rapid ⟨some 1, some 2, none⟩ ⟨none, none, some 0⟩ none,
        Command.mk .plungeCut ⟨none, none, some 0⟩ ⟨none, none, some (negAbs 3)⟩
          (some 100)] : List Command).length = 4 * targets.length
      ∧ ∀ (k : ℕ) (hk : k < targets.length),
          ∃ s₁ s₂ s₃ s₄,
            (([Command.mk .rapid ⟨none, none, none⟩ ⟨none, none, some 5⟩ none,
               Command.mk .rapid ⟨none, none, some 5⟩ ⟨some 1, some 2, none⟩ none,
               Command.mk .rapid ⟨some 1, some 2, none⟩ ⟨none, none, some 0⟩ none,
               Command.mk .plungeCut ⟨none, none, some 0⟩ ⟨none, none, some (negAbs 3)⟩
                 (some 100)] : List Command).drop (4 * k)).take 4 =
              [Command.mk .rapid s₁ ⟨none, none, some 5⟩ none,
               Command.mk .rapid s₂
                 ⟨some (targets.get ⟨k, hk⟩).1, some (targets.get ⟨k, hk⟩).2, none⟩ none,
               Command.mk .rapid s₃ ⟨none, none, some 0⟩ none,
               Command.mk .plungeCut s₄ ⟨none, none, some (-|(3 : ℚ)|)⟩ (some 100)])
    ∧ drill id 5 100 (some [.vector ⟨1, 2, 3⟩]) (some (-3)) none =
        .ok ([Command.mk .rapid ⟨none, none, none⟩ ⟨none, none, some 5⟩ none,
              Command.mk .rapid ⟨none, none, some 5⟩ ⟨some 1, some 2, none⟩ none,
              Command.mk .rapid ⟨some 1, some 2, none⟩ ⟨none, none, some 0⟩ none,
              Command.mk .plungeCut ⟨none, none, some 0⟩ ⟨none, none, some (negAbs 3)⟩
                (some 100)],
             ⟨none, none, some (negAbs 3)⟩) :=
  drill_canned_cycle_commands id 5 100 [.vector ⟨1, 2, 3⟩] 3 none
    _ ⟨none, none, some (negAbs 3)⟩ rfl

/-- C3: Drill construction fails with a distinct operation error when the
target input `o` is missing, when `depth` is missing, when a supplied object
is not a point, wire or face, or when extraction yields no target points;
the four error messages are pairwise distinct, and in every error case no
command list is produced. -/
theorem drill_fail_fast (tf : Vec → Vec) (s f : ℚ) (dep : Option ℚ) (d : ℚ)
    (objs : List CqObject) (o : Option (List CqObject))
    (prev : Option AddressVector) :
    drill tf s f none dep prev = .error operationErrorO
    ∧ drill tf s f (some objs) none prev = .error operationErrorDepth
    ∧ (CqObject.edge ∈ objs →
        drill tf s f (some objs) (some d) prev = .error operationErrorUnsupported)
    ∧ (drillVectorsOf tf objs = .ok [] →
        drill tf s f (some objs) (some d) prev = .error operationErrorEmpty)
    ∧ [operationErrorO, operationErrorDepth, operationErrorUnsupported,
       operationErrorEmpty].Pairwise (· ≠ ·)
    ∧ (∀ e cmds fin, drill tf s f o dep prev = .error e →
        drill tf s f o dep prev ≠ .ok (cmds, fin)) := by
  refine ⟨drill_missing_o tf s f dep prev, drill_missing_depth tf s f objs prev,
    fun hmem => drill_unsupported tf s f objs d prev hmem,
    fun hemp => drill_empty tf s f objs d prev hemp, by decide,
    fun e cmds fin he hok => ?_⟩
  rw [he] at hok
  exact absurd hok (by simp)

/-- Witness for C3: each failure mode at a concrete input. -/
theorem drill_fail_fast_witness :
    drill id 5 100 none (some 3) none = .error operationErrorO
    ∧ drill id 5 100 (some []) none none = .error operationErrorDepth
    ∧ drill id 5 100 (some [CqObject.edge]) (some 3) none =
        .error operationErrorUnsupported
    ∧ drill id 5 100 (some []) (some 3) none = .error operationErrorEmpty :=
  ⟨(drill_fail_fast id 5 100 (some 3) 3 [] none none).1,
   (drill_fail_fast id 5 100 none 3 [] none none).2.1,
   (drill_fail_fast id 5 100 (some 3) 3 [CqObject.edge] none none).2.2.1 (by decide),
   (drill_fail_fast id 5 100 (some 3) 3 [] none none).2.2.2.1 rfl⟩

/-- C10: after every successful Drill construction the chain-threading
invariant holds: the first command's start is the supplied `previous_pos`
(the all-unspecified AddressVector when none was given), every subsequent
command's start equals the immediately preceding command's end, and the
final `previous_pos` equals the last command's end. -/
theorem drill_chain_invariant (tf : Vec → Vec) (s f : ℚ) (objs : List CqObject)
    (d : ℚ) (prev : Option AddressVector) (cmds : List Command)
    (fin : AddressVector)
    (h : drill tf s f (some objs) (some d) prev = .ok (cmds, fin)) :
    (∀ c₀ t, cmds = c₀ :: t →
        c₀.start = prev.getD { x := none, y := none, z := none })
    ∧ (∀ i c c' t, cmds.drop i = c :: c' :: t → c'.start = c.endPos)
    ∧ (∀ c, cmds.getLast? = some c → fin = c.endPos) := by
  obtain ⟨vecs, hv, hne, hpair⟩ := drill_ok_inv tf s f objs d prev cmds fin h
  obtain ⟨-, h₂, h₃, h₄⟩ := drillCutSequences_chain s f (negAbs d)
    (ordered_drill_points (vecs.map fun v => (v.x, v.y))) (prev.getD {})
    cmds fin hpair.symm
  exact ⟨h₂, h₃, h₄⟩

/-- Witness for C10 on the single-point Drill of the C2 witness. -/
theorem drill_chain_invariant_witness :
    (∀ c₀ t,
      ([Command.mk .rapid ⟨none, none, none⟩ ⟨none, none, some 5⟩ none,
        Command.mk .rapid ⟨none, none, some 5⟩ ⟨some 1, some 2, none⟩ none,
        Command.mk .rapid ⟨some 1, some 2, none⟩ ⟨none, none, some 0⟩ none,
        Command.mk .plungeCut ⟨none, none, some 0⟩ ⟨none, none, some (negAbs 3)⟩
          (some 100)] : List Command) = c₀ :: t →
        c₀.start = (none : Option AddressVector).getD { x := none, y := none, z := none })
    ∧ (∀ i c c' t,
        ([Command.mk .rapid ⟨none, none, none⟩ ⟨none, none, some 5⟩ none,
          Command.mk .rapid ⟨none, none, some 5⟩ ⟨some 1, some 2, none⟩ none,
          Command.mk .rapid ⟨some 1, some 2, none⟩ ⟨none, none, some 0⟩ none,
          Command.mk .plungeCut ⟨none, none, some 0⟩ ⟨none, none, some (negAbs 3)⟩
            (some 100)] : List Command).drop i = c :: c' :: t →
          c'.start = c.endPos)
    ∧ (∀ c,
        ([Command.mk .rapid ⟨none, none, none⟩ ⟨none, none, some 5⟩ none,
          Command.mk .rapid ⟨none, none, some 5⟩ ⟨some 1, some 2, none⟩ none,
          Command.mk .rapid ⟨some 1, some 2, none⟩ ⟨none, none, some 0⟩ none,
          Command.mk .plungeCut ⟨none, none, some 0⟩ ⟨none, none, some (negAbs 3)⟩
            (some 100)] : List Command).getLast? = some c →
          (⟨none, none, some (negAbs 3)⟩ : AddressVector) = c.endPos) :=
  drill_chain_invariant id 5 100 [.vector ⟨1, 2, 3⟩] 3 none _
    ⟨none, none, some (negAbs 3)⟩ rfl

/-- C4 (counterexample): `ToolChange(2, speed=1000, coolant=FLOOD)` does not
render the claimed text whose last line is `"M3 S1000"`; the repository's
own test (`test_tool_change_spindle_coolant`) expects the restart line
`"M3 S1000 M8"`, with coolant re-asserted. -/
theorem tool_change_coolant_counterexample :
    ToolChange.to_gcode 2 (some 1000) .flood ≠
      "M5 M9\nG30\nM1\nT2 G43 H2 M6\nM3 S1000" := by decide

/-- C4 (amended): `ToolChange(2, speed=1000, coolant=FLOOD)` renders exactly
the five lines `"M5 M9"`, `"G30"`, `"M1"`, `"T2 G43 H2 M6"`, `"M3 S1000 M8"`
— stop with coolant-off, retract, optional stop, tool select with length
offset and tool change, then a restart that re-emits spindle, speed *and*
coolant. -/
theorem tool_change_spindle_coolant :
    ToolChange.to_gcode 2 (some 1000) .flood =
      String.intercalate "\n" ["M5 M9", "G30", "M1", "T2 G43 H2 M6", "M3 S1000 M8"] := by
  decide

/-- C5 (counterexample): the IJK axis group can produce a literal `I0`
token: the component `1/10000` is nonzero, so it passes the `!= 0` test of
`IJK.__init__`, but rounds to `0` at the default precision 3 and renders as
`I0`. -/
theorem ijk_zero_token_counterexample :
    mkRat 1 10000 ≠ 0
    ∧ IJK.str { x := some (mkRat 1 10000), y := none, z := none } 3 = "I0" := by
  decide

/-- C5 (amended): the IJK axis group omits every component whose stored
numeric value is exactly zero, and renders the remaining components as the
space-joined concatenation of the non-empty word strings, preserving I, J, K
order; a nonzero component may still round to zero and render as a literal
`I0`/`J0`/`K0` token. -/
theorem ijk_axis_group_spec (center : AddressVector) (precision : ℕ) :
    (center.x = some 0 → IJK.axis_1 center precision = "")
    ∧ (center.y = some 0 → IJK.axis_2 center precision = "")
    ∧ (center.z = some 0 → IJK.axis_3 center precision = "")
    ∧ IJK.str center precision =
        String.intercalate " "
          ([IJK.axis_1 center precision, IJK.axis_2 center precision,
            IJK.axis_3 center precision].filter (· ≠ "")) := by
  refine ⟨fun hx => ?_, fun hy => ?_, fun hz => ?_, ?_⟩
  · rw [IJK.axis_1, if_neg (by simp [hx])]
  · rw [IJK.axis_2, if_neg (by simp [hy])]
  · rw [IJK.axis_3, if_neg (by simp [hz])]
  · exact axisGroup_str_eq_filter _ _ _

/-- Witness for C5 (amended) at an all-zero center. -/
theorem ijk_axis_group_spec_witness :
    IJK.axis_1 { x := some 0, y := some 0, z := some 0 } 3 = ""
    ∧ IJK.axis_2 { x := some 0, y := some 0, z := some 0 } 3 = ""
    ∧ IJK.axis_3 { x := some 0, y := some 0, z := some 0 } 3 = ""
    ∧ IJK.str { x := some 0, y := some 0, z := some 0 } 3 =
        String.intercalate " "
          ([IJK.axis_1 { x := some 0, y := some 0, z := some 0 } 3,
            IJK.axis_2 { x := some 0, y := some 0, z := some 0 } 3,
            IJK.axis_3 { x := some 0, y := some 0, z := some 0 } 3].filter (· ≠ "")) :=
  ⟨(ijk_axis_group_spec { x := some 0, y := some 0, z := some 0 } 3).1 rfl,
   (ijk_axis_group_spec { x := some 0, y := some 0, z := some 0 } 3).2.1 rfl,
   (ijk_axis_group_spec { x := some 0, y := some 0, z := some 0 } 3).2.2.1 rfl,
   (ijk_axis_group_spec { x := some 0, y := some 0, z := some 0 } 3).2.2.2⟩

/-- C6: a CircularCW command from start (-1,0,0) with absolute end
(1,0,unspecified) and center (0,0,unspecified) renders exactly `"G2X1I1J0"`
and resolves to end position (1,0,0); the `I` value `1` is the offset from
the start to the center (`0 - (-1) = 1`), not the raw center coordinate `0`,
and the zero `J` offset is emitted as a literal `J0`. -/
theorem circular_cw_arc_scenario :
    CircularCW.to_gcode { x := -1, y := 0, z := 0 }
        { x := some 1, y := some 0, z := none }
        { x := some 0, y := some 0, z := none } =
      ("G2X1I1J0", { x := 1, y := 0, z := 0 })
    ∧ ratSub 0 (-1) = 1
    ∧ optimize_round (ratSub 0 (-1)) 3 = "1"
    ∧ optimize_round (ratSub 0 0) 3 = "0" := by decide

/-- C8: every G-code word (plain or fixed-precision) with an unspecified
address renders as the empty string, and an axis group's rendering is the
space-joined list of only the non-empty word strings, so a letter address
never appears without a value. -/
theorem word_empty_render_spec (letter : String) (precision : ℕ)
    (s₁ s₂ s₃ : String) :
    GCodeWord.str letter none = ""
    ∧ GCodeWordPrecision.str letter none precision = ""
    ∧ GCodeAxisGroup.str s₁ s₂ s₃ =
        String.intercalate " " ([s₁, s₂, s₃].filter (· ≠ "")) :=
  ⟨rfl, rfl, axisGroup_str_eq_filter s₁ s₂ s₃⟩
